import Mathlib

set_option maxRecDepth 100000

deriving instance DecidableEq for Except

/-
Verification development for the steganographic codec of the stegai-secure
repository.

The embedded code consists of:
* the decode edge function (namespace `Decode`): XOR keystream decryption,
  LSB bitstream decoding over a pixel plane, bitmap container parsing,
  marker search, and the ordered decode dispatcher;
* the encode edge function (namespace `Encode`): XOR keystream encryption,
  LSB bitstream encoding, bitmap container serialization and parsing;
* the Haar-wavelet steganography module (namespace `DWT`): 2D Haar DWT and
  inverse, message normalization, `embedText` and `extractText`.

JavaScript numbers are modelled as `Nat`/`Int` (byte stores take `% 256`
where the typed array would coerce), and the `Float64` wavelet arithmetic is
modelled exactly over `ℚ`: every value reached from integer pixel data is a
dyadic rational with denominator dividing 4, on which IEEE double arithmetic
is exact.
-/

/-! ### Shared multi-byte readers

These model `DataView.getUint32` / `getInt32` / `getUint16` accesses on a
byte buffer. -/

/-- Big-endian 32-bit read at `off` (DataView.getUint32 with littleEndian=false). -/
def u32beAt (data : List Nat) (off : Nat) : Nat :=
  data.getD off 0 * 16777216 + data.getD (off + 1) 0 * 65536
    + data.getD (off + 2) 0 * 256 + data.getD (off + 3) 0

/-- Little-endian 32-bit unsigned read at `off`. -/
def u32leRead (data : List Nat) (off : Nat) : Nat :=
  data.getD off 0 + data.getD (off + 1) 0 * 256
    + data.getD (off + 2) 0 * 65536 + data.getD (off + 3) 0 * 16777216

/-- Little-endian 32-bit signed read at `off` (DataView.getInt32). -/
def i32leRead (data : List Nat) (off : Nat) : Int :=
  if data.getD (off + 3) 0 < 128 then (u32leRead data off : Int)
  else (u32leRead data off : Int) - 4294967296

/-- Little-endian 16-bit unsigned read at `off` (DataView.getUint16). -/
def u16leRead (data : List Nat) (off : Nat) : Nat :=
  data.getD off 0 + data.getD (off + 1) 0 * 256

/-- Result of parsing a bitmap container: dimensions and a row-major
top-down RGB pixel plane. -/
structure BMPData where
  width : Nat
  height : Nat
  pixels : List Nat
deriving DecidableEq

namespace Decode

/-! ### Decode edge function (src/unnamed/part_000, decode dispatcher file) -/

/-- Character-wise XOR keystream decryption (`decryptMessage`): identity on
an empty key, otherwise XOR with the repeating key.  Strings are modelled as
their lists of character codes. -/
def decryptMessage (encrypted key : List Nat) : List Nat :=
  if key = [] then encrypted
  else (List.range encrypted.length).map fun i =>
    encrypted.getD i 0 ^^^ key.getD (i % key.length) 0

/-- The least-significant bits of the first `min(len, 100000)` plane bytes,
as collected by `decodeLSB`. -/
def lsbBits (pixelData : List Nat) : List Nat :=
  (pixelData.take 100000).map fun b => b &&& 1

/-- The 32-bit big-endian length field assembled by `decodeLSB` from the
first 32 collected bits (`length = (length << 1) | bits[i]`).  In JavaScript
the accumulator is a 32-bit signed value; a value with bit 31 set shows up
negative there and here as a number above 100000 — both fail the same sanity
check, so the decode result is unaffected. -/
def lsbLength (pixelData : List Nat) : Nat :=
  (List.range 32).foldl (fun len i => (len <<< 1) ||| (lsbBits pixelData).getD i 0) 0

/-- One message byte assembled MSB-first from 8 collected bits starting at
`start` (`byte = (byte << 1) | bits[bitIndex]`). -/
def byteAt (bits : List Nat) (start : Nat) : Nat :=
  (List.range 8).foldl (fun byte j => (byte <<< 1) ||| bits.getD (start + j) 0) 0

/-- The message-byte loop of `decodeLSB`: reads `count` bytes of 8 bits each
starting at bit `start`, returning `none` as soon as a needed bit index falls
outside the collected bits. -/
def extractMessageBytes (bits : List Nat) (start : Nat) : Nat → Option (List Nat)
  | 0 => some []
  | count + 1 =>
    if start + 8 ≤ bits.length then
      match extractMessageBytes bits (start + 8) count with
      | some rest => some (byteAt bits start :: rest)
      | none => none
    else none

/-- `decodeLSB(pixelData)`: collect the LSBs of up to the first 100000 plane
bytes, read a 32-bit big-endian length, sanity-check it against `(0,100000]`,
then read `length` message bytes MSB-first.  The source also reassembles a
7-byte end sentinel and compares it with the ASCII text of two angle pairs
around END, but a mismatch only logs a message; the returned value is
unaffected, so the check is omitted here.  The source finally UTF-8-decodes
the bytes; the model returns the byte list itself. -/
def decodeLSB (pixelData : List Nat) : Option (List Nat) :=
  if lsbLength pixelData = 0 ∨ 100000 < lsbLength pixelData then none
  else extractMessageBytes (lsbBits pixelData) 32 (lsbLength pixelData)

/-- `parseBMP` of the decode function: validates the 2-byte signature, reads
pixel-data offset, width, height (sign encodes row order), and bit depth
(must be 24 or 32), then reads each pixel at the correct orientation,
reordering BGR to RGB.  Out-of-range rows are left zeroed, matching the
source bounds guard on `srcIdx + 2 < data.length`.  A negative stored width
would crash the JavaScript (negative typed-array size); the model takes
`toNat`, which no claim exercises. -/
def parseBMP (data : List Nat) : Option BMPData :=
  if data.getD 0 0 = 66 ∧ data.getD 1 0 = 77 then
    let pixelOffset := u32leRead data 10
    let heightI := i32leRead data 22
    let height := heightI.natAbs
    let bpp := u16leRead data 28
    if bpp = 24 ∨ bpp = 32 then
      let bytesPerPixel := bpp / 8
      let width := (i32leRead data 18).toNat
      let rowSize := (width * bytesPerPixel + 3) / 4 * 4
      some { width := width, height := height,
             pixels := (List.range (width * height)).flatMap fun i =>
               let y := i / width
               let x := i % width
               let srcY := if 0 < heightI then height - 1 - y else y
               let s := pixelOffset + srcY * rowSize + x * bytesPerPixel
               if s + 2 < data.length then
                 [data.getD (s + 2) 0, data.getD (s + 1) 0, data.getD s 0]
               else [0, 0, 0] }
    else none
  else none

/-- One-position match test of `findMarker`: do the marker bytes occur in
`data` starting at index `i`? -/
def matchesAt (data : List Nat) (marker : List Nat) (i : Nat) : Bool :=
  match marker with
  | [] => true
  | m :: ms => (data.getD i 0 == m) && matchesAt data ms (i + 1)

/-- The backward scan of `findMarker`, from start position `i` down to 0. -/
def findMarkerAux (data marker : List Nat) : Nat → Option Nat
  | 0 => if matchesAt data marker 0 then some 0 else none
  | i + 1 => if matchesAt data marker (i + 1) then some (i + 1) else findMarkerAux data marker i

/-- `findMarker(data, marker)`: scan backward from
`data.length - marker.length` for the marker bytes; `none` models the -1
result when the marker is absent (or the buffer is shorter than it). -/
def findMarker (data marker : List Nat) : Option Nat :=
  if marker.length ≤ data.length then findMarkerAux data marker (data.length - marker.length)
  else none

/-- ASCII bytes of the legacy marker STEGO. -/
def stegoMarker : List Nat := [83, 84, 69, 71, 79]

/-- ASCII bytes of the newer start marker (angle pairs around STEGO_START). -/
def startMarker : List Nat := [60, 60, 83, 84, 69, 71, 79, 95, 83, 84, 65, 82, 84, 62, 62]

/-- ASCII bytes of the newer end marker (angle pairs around STEGO_END). -/
def newEndMarker : List Nat := [60, 60, 83, 84, 69, 71, 79, 95, 69, 78, 68, 62, 62]

/-- Method 3 of the dispatcher (legacy append format): find the STEGO marker
backward, read a big-endian u32 length, validate `0 < length < 100000` and
that the payload fits, then slice the payload bytes. -/
def legacyDecode (data : List Nat) : Option (List Nat) :=
  match findMarker data stegoMarker with
  | none => none
  | some idx =>
    if idx + 5 + 4 ≤ data.length then
      let len := u32beAt data (idx + 5)
      if 0 < len ∧ len < 100000 then
        if idx + 5 + 4 + len ≤ data.length then some ((data.drop (idx + 9)).take len)
        else none
      else none
    else none

/-- Method 2 of the dispatcher (newer append format): locate both markers,
require the end marker after the start marker and the payload to end at or
before the end marker, then slice the payload bytes. -/
def newAppendDecode (data : List Nat) : Option (List Nat) :=
  match findMarker data startMarker, findMarker data newEndMarker with
  | some s, some e =>
    if s < e then
      if s + 15 + 4 ≤ data.length then
        let len := u32beAt data (s + 15)
        if s + 15 + 4 + len ≤ e then some ((data.drop (s + 19)).take len) else none
      else none
    else none
  | _, _ => none

/-- The method tag reported by the dispatcher. -/
inductive Method where
  | LSB
  | AppendNew
  | AppendOld
deriving DecidableEq

/-- The decode dispatcher: try bitmap LSB, then the newer append format,
then the legacy append format, in that order; the first candidate that
yields a (nonempty, for LSB) message wins, its payload is passed through the
keystream cipher with the caller key, and its method tag is reported. -/
def decodeDispatch (data key : List Nat) : Option (List Nat × Method) :=
  let viaLSB : Option (List Nat) :=
    match parseBMP data with
    | some bmp =>
      match decodeLSB bmp.pixels with
      | some m => if 0 < m.length then some m else none
      | none => none
    | none => none
  match viaLSB with
  | some m => some (decryptMessage m key, Method.LSB)
  | none =>
    match newAppendDecode data with
    | some m => some (decryptMessage m key, Method.AppendNew)
    | none =>
      match legacyDecode data with
      | some m => some (decryptMessage m key, Method.AppendOld)
      | none => none

end Decode

namespace Encode

/-! ### Encode edge function (src/unnamed/part_000, BMP/LSB encoder file) -/

/-- Character-wise XOR keystream encryption (`encryptMessage`): identity on
an empty key, otherwise XOR with the repeating key. -/
def encryptMessage (message key : List Nat) : List Nat :=
  if key = [] then message
  else (List.range message.length).map fun i =>
    message.getD i 0 ^^^ key.getD (i % key.length) 0

/-- MSB-first bits of one byte (`for i = 7 downto 0: push (byte >> i) & 1`). -/
def byteBits (b : Nat) : List Nat :=
  (List.range 8).map fun i => (b >>> (7 - i)) &&& 1

/-- The 4-byte big-endian length prefix written by `encodeLSB`. -/
def lengthBytes4 (n : Nat) : List Nat :=
  [(n >>> 24) &&& 255, (n >>> 16) &&& 255, (n >>> 8) &&& 255, n &&& 255]

/-- ASCII bytes of the 7-byte end sentinel (two angle pairs around END). -/
def endSentinel : List Nat := [60, 60, 69, 78, 68, 62, 62]

/-- The `fullMessage` buffer of `encodeLSB`:
length-prefix ++ message ++ sentinel. -/
def fullMessage (message : List Nat) : List Nat :=
  lengthBytes4 message.length ++ message ++ endSentinel

/-- The `bits` array of `encodeLSB`: the framed bytes expanded MSB-first. -/
def frameBits (message : List Nat) : List Nat :=
  (fullMessage message).flatMap byteBits

/-- `encodeLSB(pixelData, message)`: frame the message bytes as
length-prefix ++ message ++ sentinel, expand to MSB-first bits, fail if the
bits outnumber the plane bytes, otherwise clear bit 0 of each of the first
`bits.length` plane bytes and OR in the message bit, leaving the remaining
bytes unchanged.  The source clones the plane before writing, so the input
is never mutated; the capacity check precedes the clone. -/
def encodeLSB (pixelData message : List Nat) : Except String (List Nat) :=
  if pixelData.length < (frameBits message).length then
    .error ("Message too long. Maximum " ++ toString (pixelData.length / 8)
      ++ " characters allowed.")
  else
    .ok ((List.range pixelData.length).map fun i =>
      if i < (frameBits message).length then
        (pixelData.getD i 0 &&& 254) ||| (frameBits message).getD i 0
      else pixelData.getD i 0)

/-- Little-endian byte serialization of a 32-bit value (`setUint32`/
`setInt32` both store the value modulo 2^32). -/
def u32le (n : Nat) : List Nat :=
  [n % 256, n / 256 % 256, n / 65536 % 256, n / 16777216 % 256]

/-- Little-endian byte serialization of a 16-bit value. -/
def u16le (n : Nat) : List Nat := [n % 256, n / 256 % 256]

/-- Row stride of a 24-bit bitmap: rows are zero-padded to 4-byte alignment. -/
def bmpRowSize (width : Nat) : Nat := (width * 3 + 3) / 4 * 4

/-- The 54-byte bitmap header written by `createBMP`: 14-byte file header
(signature, file size, reserved, pixel-data offset 54) and 40-byte info
header (header size, width, height positive for bottom-up, 1 plane, 24 bits
per pixel, no compression, image size, 2835 = 72 DPI resolutions, and the
two zero-initialized color fields the source never writes). -/
def bmpHeader (width height pixelDataSize : Nat) : List Nat :=
  [66, 77] ++ u32le (54 + pixelDataSize) ++ [0, 0, 0, 0] ++ u32le 54
    ++ u32le 40 ++ u32le width ++ u32le height ++ u16le 1 ++ u16le 24
    ++ u32le 0 ++ u32le pixelDataSize ++ u32le 2835 ++ u32le 2835
    ++ u32le 0 ++ u32le 0

/-- One stored bitmap row for source row `y`: BGR triplets followed by the
alignment padding (the typed-array store coerces each byte modulo 256). -/
def bmpRow (width : Nat) (rgbData : List Nat) (y : Nat) : List Nat :=
  ((List.range width).flatMap fun x =>
    [rgbData.getD ((y * width + x) * 3 + 2) 0 % 256,
     rgbData.getD ((y * width + x) * 3 + 1) 0 % 256,
     rgbData.getD ((y * width + x) * 3) 0 % 256])
    ++ List.replicate (bmpRowSize width - 3 * width) 0

/-- `createBMP(width, height, rgbData)`: 54-byte header followed by the
pixel rows emitted bottom-up (`for y = height-1 downto 0`). -/
def createBMP (width height : Nat) (rgbData : List Nat) : List Nat :=
  bmpHeader width height (bmpRowSize width * height)
    ++ (List.range height).reverse.flatMap (bmpRow width rgbData)

/-- `parseBMP` of the encode function: same layout as the decode-side
parser, but reads without a bounds guard (an out-of-range JavaScript read
yields undefined, which the typed-array store coerces to 0, matching the
`getD` default). -/
def parseBMP (data : List Nat) : Option BMPData :=
  if data.getD 0 0 = 66 ∧ data.getD 1 0 = 77 then
    let pixelOffset := u32leRead data 10
    let heightI := i32leRead data 22
    let height := heightI.natAbs
    let bpp := u16leRead data 28
    if bpp = 24 ∨ bpp = 32 then
      let bytesPerPixel := bpp / 8
      let width := (i32leRead data 18).toNat
      let rowSize := (width * bytesPerPixel + 3) / 4 * 4
      some { width := width, height := height,
             pixels := (List.range (width * height)).flatMap fun i =>
               let y := i / width
               let x := i % width
               let srcY := if 0 < heightI then height - 1 - y else y
               let s := pixelOffset + srcY * rowSize + x * bytesPerPixel
               [data.getD (s + 2) 0, data.getD (s + 1) 0, data.getD s 0] }
    else none
  else none

end Encode

namespace DWT

/-! ### Haar-wavelet steganography (src/src/lib/dwt-steganography.ts)

The `Float64Array` arithmetic is modelled over `ℚ`.  All values reached from
integer pixel data are dyadic rationals with denominator dividing 4, which
IEEE doubles compute exactly, so the model is exact on every input the
claims quantify over. -/

/-- The carrier image: RGBA byte data, row-major.  The browser maintains
`data.length = 4 * width * height`; theorems take it as a hypothesis. -/
structure ImageData where
  width : Nat
  height : Nat
  data : List Nat
deriving DecidableEq

/-- The four subbands produced by `dwt2`, plus the half dimensions. -/
structure Subbands where
  cA : List ℚ
  cH : List ℚ
  cV : List ℚ
  cD : List ℚ
  halfWidth : Nat
  halfHeight : Nat

/-- `dwt2(channel, width, height)`: row pass `low = (a+b)/2`,
`high = (a-b)/2` over horizontally adjacent pairs (the second element
defaults to the first at an odd right edge), then the same column pass on
the row-pass outputs.  The column pass of the row-low output yields
`(cA, cV)` and of the row-high output `(cH, cD)`, matching the source
assignment order.  Arrays indexed `y * halfWidth + x` are modelled as
range-maps over the flat index. -/
def dwt2 (channel : List ℚ) (width height : Nat) : Subbands :=
  let halfWidth := width / 2
  let halfHeight := height / 2
  let tempLow := (List.range (height * halfWidth)).map fun k =>
    let y := k / halfWidth
    let x := k % halfWidth
    let a := channel.getD (y * width + 2 * x) 0
    let b := if 2 * x + 1 < width then channel.getD (y * width + 2 * x + 1) 0 else a
    (a + b) / 2
  let tempHigh := (List.range (height * halfWidth)).map fun k =>
    let y := k / halfWidth
    let x := k % halfWidth
    let a := channel.getD (y * width + 2 * x) 0
    let b := if 2 * x + 1 < width then channel.getD (y * width + 2 * x + 1) 0 else a
    (a - b) / 2
  let cA := (List.range (halfHeight * halfWidth)).map fun k =>
    let y := k / halfWidth
    let x := k % halfWidth
    let aLow := tempLow.getD (2 * y * halfWidth + x) 0
    let bLow := if 2 * y + 1 < height then tempLow.getD ((2 * y + 1) * halfWidth + x) 0 else aLow
    (aLow + bLow) / 2
  let cV := (List.range (halfHeight * halfWidth)).map fun k =>
    let y := k / halfWidth
    let x := k % halfWidth
    let aLow := tempLow.getD (2 * y * halfWidth + x) 0
    let bLow := if 2 * y + 1 < height then tempLow.getD ((2 * y + 1) * halfWidth + x) 0 else aLow
    (aLow - bLow) / 2
  let cH := (List.range (halfHeight * halfWidth)).map fun k =>
    let y := k / halfWidth
    let x := k % halfWidth
    let aHigh := tempHigh.getD (2 * y * halfWidth + x) 0
    let bHigh := if 2 * y + 1 < height then tempHigh.getD ((2 * y + 1) * halfWidth + x) 0 else aHigh
    (aHigh + bHigh) / 2
  let cD := (List.range (halfHeight * halfWidth)).map fun k =>
    let y := k / halfWidth
    let x := k % halfWidth
    let aHigh := tempHigh.getD (2 * y * halfWidth + x) 0
    let bHigh := if 2 * y + 1 < height then tempHigh.getD ((2 * y + 1) * halfWidth + x) 0 else aHigh
    (aHigh - bHigh) / 2
  ⟨cA, cH, cV, cD, halfWidth, halfHeight⟩

/-- `idwt2`: column-wise sum/difference reconstruction of the two temporary
planes, then row-wise reconstruction of the channel.  Positions the source
loops never write (the last row/column when a dimension is odd) stay at the
zero the typed array was initialized with. -/
def idwt2 (cA cH cV cD : List ℚ) (halfWidth halfHeight originalWidth originalHeight : Nat) :
    List ℚ :=
  let tempLow := (List.range (originalHeight * halfWidth)).map fun k =>
    let yy := k / halfWidth
    let x := k % halfWidth
    if yy / 2 < halfHeight then
      if yy % 2 = 0 then cA.getD (yy / 2 * halfWidth + x) 0 + cV.getD (yy / 2 * halfWidth + x) 0
      else cA.getD (yy / 2 * halfWidth + x) 0 - cV.getD (yy / 2 * halfWidth + x) 0
    else 0
  let tempHigh := (List.range (originalHeight * halfWidth)).map fun k =>
    let yy := k / halfWidth
    let x := k % halfWidth
    if yy / 2 < halfHeight then
      if yy % 2 = 0 then cH.getD (yy / 2 * halfWidth + x) 0 + cD.getD (yy / 2 * halfWidth + x) 0
      else cH.getD (yy / 2 * halfWidth + x) 0 - cD.getD (yy / 2 * halfWidth + x) 0
    else 0
  (List.range (originalHeight * originalWidth)).map fun k =>
    let y := k / originalWidth
    let xx := k % originalWidth
    if xx / 2 < halfWidth then
      if xx % 2 = 0 then
        tempLow.getD (y * halfWidth + xx / 2) 0 + tempHigh.getD (y * halfWidth + xx / 2) 0
      else tempLow.getD (y * halfWidth + xx / 2) 0 - tempHigh.getD (y * halfWidth + xx / 2) 0
    else 0

/-- Number of binary digits of `v.toString(2)`. -/
def jsBitLen (v : Nat) : Nat := if v = 0 then 1 else Nat.log2 v + 1

/-- The digit-wise complement of `v.toString(2).padStart(8, 0-digit)`:
every binary digit of the (at least 8 digit) representation is flipped. -/
def complement8 (v : Nat) : Nat := 2 ^ max 8 (jsBitLen v) - 1 - v

/-- Maximum of a list of character codes.  JavaScript Math.max over an empty
argument list is negative infinity, which `ℚ` cannot represent; the model
uses 0 there.  The two agree on every nonempty text, and for the empty text
the difference only feeds values that the final clamp maps into `[0,255]`
either way. -/
def listMax (l : List Nat) : Nat := l.foldr max 0

/-- `processEncryption(text)`: per character `c`, the transformed value is
`complement(c) + M` with `M` the maximum code; returns the value list, `M`,
and the length.  Texts are modelled as lists of character codes. -/
def processEncryption (text : List Nat) : List ℚ × Nat × Nat :=
  let M := listMax text
  (text.map fun c => (complement8 c : ℚ) + (M : ℚ), M, text.length)

/-- The green channel of an image, as read by `embedText`/`extractText`. -/
def greenChannel (img : ImageData) : List ℚ :=
  (List.range (img.width * img.height)).map fun i => (img.data.getD (4 * i + 1) 0 : ℚ)

/-- The embedding capacity checked by `embedText`:
`min(len cV, len cD) * 2`. -/
def maxCapacity (img : ImageData) : Nat :=
  let sb := dwt2 (greenChannel img) img.width img.height
  min sb.cV.length sb.cD.length * 2

/-- The source loop `for i < count: l[i] = vals[i]` on a Float64Array:
positions below `count` take the new values, later positions are unchanged,
and writes past the end of `l` are ignored. -/
def overwriteHead (l vals : List ℚ) (count : Nat) : List ℚ :=
  (List.range l.length).map fun i => if i < count then vals.getD i 0 else l.getD i 0

/-- Math.round: round half toward positive infinity,
`round(x) = floor(x + 1/2)`, computed on the normalized rational. -/
def jsRound (x : ℚ) : Int := Int.ediv (2 * x.num + (x.den : Int)) (2 * (x.den : Int))

/-- The per-pixel store of `embedText`:
`Math.round(Math.max(0, Math.min(255, v)))`, yielding a byte. -/
def clampRound (v : ℚ) : Nat := (jsRound (max 0 (min 255 v))).toNat

/-- `embedText(imageData, secretText)`: transform the message, Haar-decompose
the green channel, fail if the length exceeds capacity, write the length and
maximum into the first two `cH` slots, write the first half of the values
into `cV` and the rest into `cD` (flat indexing from 0), reconstruct with
`idwt2`, clamp-round the green channel, and copy red, blue and alpha bytes
unchanged. -/
def embedText (img : ImageData) (secretText : List Nat) : Except String ImageData :=
  let p := processEncryption secretText
  let normMsg := p.1
  let M := p.2.1
  let n := p.2.2
  let sb := dwt2 (greenChannel img) img.width img.height
  if min sb.cV.length sb.cD.length * 2 < n then
    .error ("Message too long. Maximum " ++ toString (min sb.cV.length sb.cD.length * 2)
      ++ " characters allowed.")
  else
    let cH := (sb.cH.set 0 (n : ℚ)).set 1 (M : ℚ)
    let mid := n / 2
    let cV := overwriteHead sb.cV normMsg mid
    let cD := overwriteHead sb.cD (normMsg.drop mid) (n - mid)
    let stegoGreen := idwt2 sb.cA cH cV cD sb.halfWidth sb.halfHeight img.width img.height
    .ok ⟨img.width, img.height,
      (List.range (img.width * img.height)).flatMap fun i =>
        [img.data.getD (4 * i) 0, clampRound (stegoGreen.getD i 0),
         img.data.getD (4 * i + 2) 0, img.data.getD (4 * i + 3) 0]⟩

/-- The length metadata slot read back by `extractText`:
`Math.round(cH[0])` of the freshly decomposed green channel. -/
def metaLength (img : ImageData) : Int :=
  jsRound ((dwt2 (greenChannel img) img.width img.height).cH.getD 0 0)

/-- The maximum metadata slot read back by `extractText`:
`Math.round(cH[1])`. -/
def metaMax (img : ImageData) : Int :=
  jsRound ((dwt2 (greenChannel img) img.width img.height).cH.getD 1 0)

/-- The per-value character recovery of `extractText`:
`revNorm = round(val) - M`, take the low byte (a JavaScript bitwise AND with
255 reduces the 32-bit value modulo 256, nonnegative), and flip all 8 binary
digits, i.e. subtract from 255. -/
def decodeChar (M : Int) (val : ℚ) : Nat :=
  ((255 : Int) - (jsRound val - M).emod 256).toNat

/-- `extractText(imageData)`: re-decompose the green channel, read and
validate the two metadata slots (`n` in `(0,10000]`, `M` in `(0,255]`), read
`floor(n/2)` values from `cV` and the rest from `cD`, recover a character
code from each, and keep exactly the printable codes in `[32,126]` (codes in
`(0,32)` are skipped by an explicit branch, every other out-of-range code
falls through both branches and is likewise dropped).  An out-of-range
subband read yields NaN in JavaScript and 0 here; both produce a code the
printable filter makes irrelevant for the theorems stated below. -/
def extractText (img : ImageData) : Except String (List Nat) :=
  let sb := dwt2 (greenChannel img) img.width img.height
  let extN := metaLength img
  let extM := metaMax img
  if extN ≤ 0 ∨ 10000 < extN then
    .error "No valid embedded message found in this image (invalid length)"
  else if extM ≤ 0 ∨ 255 < extM then
    .error "No valid embedded message found in this image (invalid max value)"
  else
    let n := extN.toNat
    let mid := n / 2
    let recoveredNorm := ((List.range mid).map fun i => sb.cV.getD i 0)
      ++ ((List.range (n - mid)).map fun i => sb.cD.getD i 0)
    .ok (((recoveredNorm.map (decodeChar extM)).filter fun c => decide (32 ≤ c ∧ c ≤ 126)))

end DWT

/-! ### Specification-side definitions

These restate, in the words of the specification, the values the code-side
definitions are claimed to produce; the theorems below relate the two. -/

/-- The i-th message byte as the specification describes it: 8 bits starting
at bit `32 + 8*i`, assembled MSB-first. -/
def specMessageByte (pixelData : List Nat) (i : Nat) : Nat :=
  (List.range 8).foldl (fun b j => b * 2 + (Decode.lsbBits pixelData).getD (32 + 8 * i + j) 0) 0

/-- The total framed bit count of the LSB encoder as the specification
states it: 32 length bits, 8 bits per message byte, 56 sentinel bits. -/
def framedBitCount (message : List Nat) : Nat := 32 + 8 * message.length + 56

/-- Framed bit `i` as the specification describes the format: big-endian
length bits, then the message bytes MSB-first, then the sentinel bytes
MSB-first. -/
def specFrameBit (message : List Nat) (i : Nat) : Nat :=
  if i < 32 then (message.length >>> (31 - i)) &&& 1
  else if i < 32 + 8 * message.length then
    (message.getD ((i - 32) / 8) 0 >>> (7 - (i - 32) % 8)) &&& 1
  else
    (Encode.endSentinel.getD ((i - (32 + 8 * message.length)) / 8) 0
      >>> (7 - (i - (32 + 8 * message.length)) % 8)) &&& 1

/-- The image `embedText` returns on success (its input on failure, which
the success theorems never reach). -/
def embedResult (img : DWT.ImageData) (text : List Nat) : DWT.ImageData :=
  (DWT.embedText img text).toOption.getD img

/-! ### Concrete test vectors -/

/-- A 96-byte pixel plane whose LSBs frame the single message byte 7:
bit 31 closes the big-endian length 1, bits 37..39 are the byte bits. -/
def c2pixels : List Nat :=
  (List.range 96).map fun i => if i = 31 ∨ i = 37 ∨ i = 38 ∨ i = 39 then 201 else 200

/-- An 8×4 bitmap built over `c2pixels` with a legacy STEGO frame (payload
bytes 88,89,90) appended: a carrier holding both an LSB message and an
appended legacy message. -/
def c2carrier : List Nat :=
  Encode.createBMP 8 4 c2pixels ++ [83, 84, 69, 71, 79, 0, 0, 0, 3, 88, 89, 90]

/-- A buffer whose legacy frame declares length exactly 100000 with exactly
100000 payload bytes available: STEGO, the big-endian length field
0x000186A0, then 100000 payload bytes. -/
def cbuf : List Nat := [83, 84, 69, 71, 79, 0, 1, 134, 160] ++ List.replicate 100000 65

/-- A well-formed legacy frame with payload bytes 65,66,67. -/
def sbuf : List Nat := [83, 84, 69, 71, 79, 0, 0, 0, 3, 65, 66, 67]

/-- A 40-byte pixel plane whose LSBs encode length 1 and message byte 7
(no sentinel bits present). -/
def plane4 : List Nat :=
  (List.range 40).map fun i => if i = 31 ∨ i = 37 ∨ i = 38 ∨ i = 39 then 1 else 0

/-- A 96-byte pixel plane of value 10, exactly the capacity of a framed
one-byte message. -/
def plane5 : List Nat := List.replicate 96 10

/-- The plane produced by LSB-encoding the message byte 7 into `plane5`. -/
def out5 : List Nat := (Encode.encodeLSB plane5 [7]).toOption.getD []

/-- The 32 bytes whose LSBs spell the big-endian length 12496. -/
def lsbLenPrefix : List Nat :=
  [0, 0, 0, 0, 0, 0, 0, 0, 0, 0, 0, 0, 0, 0, 0, 0,
   0, 0, 1, 1, 0, 0, 0, 0, 1, 1, 0, 1, 0, 0, 0, 0]

/-- A 100000-byte plane declaring the largest recoverable message length,
12496, with an all-zero message. -/
def plane10 : List Nat := lsbLenPrefix ++ List.replicate 99968 0

/-- A 32-byte plane of odd bytes: its 32 length bits are all 1, far above
the recoverable ceiling. -/
def plane32 : List Nat := List.replicate 32 1

/-- A 2×2 all-black RGBA image. -/
def img0 : DWT.ImageData := ⟨2, 2, List.replicate 16 0⟩

/-- The image `embedText` produces from `img0` and the single character 72:
the reconstructed green values 256, -256, -254, 254 clamp-round to
255, 0, 0, 254. -/
def stego0 : DWT.ImageData :=
  ⟨2, 2, [0, 255, 0, 0, 0, 0, 0, 0, 0, 0, 0, 0, 0, 254, 0, 0]⟩

/-- A 2×4 image whose green channel decomposes to metadata n = 1, M = 1 and
a single recovered value 6, which decodes to the non-printable code 250 and
is dropped: extraction succeeds with an empty result. -/
def img9 : DWT.ImageData :=
  ⟨2, 4, [0, 107, 0, 0, 0, 93, 0, 0, 0, 95, 0, 0, 0, 105, 0, 0,
          0, 101, 0, 0, 0, 99, 0, 0, 0, 101, 0, 0, 0, 99, 0, 0]⟩

/-- A 2×4 image whose green channel decomposes to metadata n = 1, M = 1 and
a single recovered value 191, which decodes to the printable code 65. -/
def img9b : DWT.ImageData :=
  ⟨2, 4, [0, 384, 0, 0, 0, 0, 0, 0, 0, 0, 0, 0, 0, 380, 0, 0,
          0, 2, 0, 0, 0, 0, 0, 0, 0, 2, 0, 0, 0, 0, 0, 0]⟩

/-! ### Theorems -/

/-! ### Generic list helpers -/

/-- Length of a `flatMap` whose chunks all have the same length `s`. -/
lemma length_flatMap_const {α β : Type} (l : List α) (f : α → List β) (s : Nat)
    (hs : ∀ a ∈ l, (f a).length = s) : (l.flatMap f).length = s * l.length := by
  induction l with
  | nil => simp
  | cons a t ih =>
    simp only [List.flatMap_cons, List.length_append, List.length_cons]
    rw [hs a (by simp), ih (fun b hb => hs b (by simp [hb]))]
    ring

/-- Element `s*r + j` of a `flatMap` with constant chunk length `s` is
element `j` of chunk `r`. -/
lemma getD_flatMap_const {α β : Type} (l : List α) (f : α → List β) (s : Nat)
    (hs : ∀ a ∈ l, (f a).length = s) (r j : Nat) (hr : r < l.length) (hj : j < s)
    (d : β) (da : α) :
    (l.flatMap f).getD (s * r + j) d = (f (l.getD r da)).getD j d := by
  induction l generalizing r with
  | nil => simp at hr
  | cons a t ih =>
    cases r with
    | zero =>
      simp only [List.flatMap_cons, Nat.mul_zero, Nat.zero_add, List.getD_cons_zero]
      exact List.getD_append _ _ _ _ (by rw [hs a (by simp)]; exact hj)
    | succ r' =>
      simp only [List.flatMap_cons, List.getD_cons_succ]
      rw [List.getD_append_right _ _ _ _ (by rw [hs a (by simp)]; nlinarith)]
      rw [hs a (by simp)]
      have harith : s * (r' + 1) + j - s = s * r' + j := by ring_nf; omega
      rw [harith]
      exact ih (fun b hb => hs b (by simp [hb])) r' (by simpa using hr)

/-- Length of a `flatMap` of explicit three-element chunks. -/
lemma length_flatMap_three {α β : Type} (l : List α) (f g k : α → β) :
    (l.flatMap fun a => [f a, g a, k a]).length = 3 * l.length :=
  length_flatMap_const l (fun a => [f a, g a, k a]) 3 (fun a _ => rfl)

/-- Element access into a `flatMap` of explicit three-element chunks. -/
lemma getD_flatMap_three {α β : Type} (l : List α) (f g k : α → β) (r j : Nat)
    (hr : r < l.length) (hj : j < 3) (d : β) (da : α) :
    (l.flatMap fun a => [f a, g a, k a]).getD (3 * r + j) d
      = [f (l.getD r da), g (l.getD r da), k (l.getD r da)].getD j d :=
  getD_flatMap_const l (fun a => [f a, g a, k a]) 3 (fun a _ => rfl) r j hr hj d da

/-- Rebuilding a list from its `getD` values over its index range. -/
lemma map_getD_range {α : Type} (l : List α) (d : α) :
    (List.range l.length).map (fun i => l.getD i d) = l := by
  apply List.ext_getElem (by simp)
  intro n h1 h2
  simp only [List.getElem_map, List.getElem_range]
  exact (List.getD_eq_getElem l d h2).symm ▸ rfl

/-- If `a` is neither in the list nor the default, `getD` never returns it. -/
lemma getD_ne_of_not_mem {α : Type} {a : α} {l : List α} (k : Nat) {d : α}
    (hmem : a ∉ l) (hd : a ≠ d) : l.getD k d ≠ a := by
  rcases Nat.lt_or_ge k l.length with h | h
  · rw [List.getD_eq_getElem l d h]
    intro he
    exact hmem (he ▸ List.getElem_mem h)
  · rw [List.getD_eq_default l d h]
    exact fun he => hd he.symm

/-- Bridge between the shift-or bit accumulation used by the JavaScript code
and plain arithmetic: appending a bit `b < 2`. -/
lemma shiftLeft_or_bit (a b : Nat) (hb : b < 2) : (a <<< 1) ||| b = a * 2 + b := by
  rw [Nat.shiftLeft_eq, pow_one]
  interval_cases b
  · simp
  · apply Nat.eq_of_testBit_eq
    intro i
    rw [Nat.testBit_lor]
    cases i with
    | zero =>
      simp only [Nat.testBit_zero]
      have h1 : a * 2 % 2 = 0 := by omega
      have h2 : (a * 2 + 1) % 2 = 1 := by omega
      simp [h1, h2]
    | succ j =>
      rw [Nat.testBit_succ, Nat.testBit_succ, Nat.testBit_succ]
      have h1 : a * 2 / 2 = a := by omega
      have h2 : (a * 2 + 1) / 2 = a := by omega
      have h3 : (1 : Nat) / 2 = 0 := by omega
      rw [h1, h2, h3]
      simp [Nat.zero_testBit]

/-- A fold that accumulates bits with shift-or equals the arithmetic fold,
whenever every folded element is a bit. -/
lemma foldl_shiftor_eq_foldl_arith (l : List Nat) (hl : ∀ b ∈ l, b < 2) :
    ∀ acc : Nat, l.foldl (fun a b => (a <<< 1) ||| b) acc
      = l.foldl (fun a b => a * 2 + b) acc := by
  induction l with
  | nil => intro acc; rfl
  | cons b t ih =>
    intro acc
    simp only [List.foldl_cons]
    rw [shiftLeft_or_bit acc b (hl b (by simp))]
    exact ih (fun x hx => hl x (by simp [hx])) _


/-- Reading an index of the canonical range-map list. -/
lemma getD_map_range {α : Type} (n i : Nat) (f : Nat → α) (d : α) (h : i < n) :
    ((List.range n).map f).getD i d = f i := by
  rw [List.getD_eq_getElem _ d (by simpa using h), List.getElem_map, List.getElem_range]

/-- C7: the character-level XOR keystream is self-inverse — decrypting an
encryption with the same key restores the input — and both directions are
the identity when the key is empty. -/
theorem keystream_self_inverse (x k : List Nat) :
    Decode.decryptMessage (Encode.encryptMessage x k) k = x
    ∧ Encode.encryptMessage x [] = x ∧ Decode.decryptMessage x [] = x := by
  refine ⟨?_, by simp [Encode.encryptMessage], by simp [Decode.decryptMessage]⟩
  by_cases hk : k = []
  · simp [hk, Encode.encryptMessage, Decode.decryptMessage]
  · simp only [Encode.encryptMessage, Decode.decryptMessage, if_neg hk]
    rw [List.length_map, List.length_range]
    apply List.ext_getElem (by simp)
    intro i h1 h2
    simp only [List.getElem_map, List.getElem_range]
    rw [getD_map_range _ _ _ _ (by simpa using h2), Nat.xor_cancel_right,
      List.getD_eq_getElem _ _ h2]

/-- C2: whenever the carrier parses as a supported bitmap whose pixel plane
holds a decodable nonempty LSB message, the dispatcher answers with that
message (keystream-decrypted) under the Bitmap-LSB method tag — even when
the carrier also holds a decodable appended legacy frame — because the
candidates are tried in the fixed order LSB, New-Append, Legacy-Append and
the first success short-circuits. -/
theorem dispatcher_precedence (data key : List Nat) (bmp : BMPData) (m p : List Nat)
    (hbmp : Decode.parseBMP data = some bmp)
    (hlsb : Decode.decodeLSB bmp.pixels = some m)
    (hne : m ≠ [])
    (hleg : Decode.legacyDecode data = some p) :
    Decode.decodeDispatch data key = some (Decode.decryptMessage m key, Decode.Method.LSB) := by
  have hpos : 0 < m.length := List.length_pos.mpr hne
  simp only [Decode.decodeDispatch, hbmp, hlsb, if_pos hpos]

set_option maxRecDepth 100000 in
/-- C2 witness: a concrete 8×4 bitmap carrying both the LSB message byte 7
and an appended legacy payload decodes, with an empty key, to the LSB
message under the LSB tag. -/
theorem dispatcher_precedence_witness :
    Decode.decodeDispatch c2carrier []
      = some (Decode.decryptMessage [7] [], Decode.Method.LSB) :=
  dispatcher_precedence c2carrier [] ⟨8, 4, c2pixels⟩ [7] [88, 89, 90]
    (by decide) (by decide) (by decide) (by decide)

/-- Every collected LSB is a bit. -/
lemma lsbBits_getD_lt_two (p : List Nat) (idx : Nat) : (Decode.lsbBits p).getD idx 0 < 2 := by
  have hall : ∀ b ∈ Decode.lsbBits p, b < 2 := by
    intro b hb
    simp only [Decode.lsbBits, List.mem_map] at hb
    obtain ⟨x, _, hx⟩ := hb
    rw [← hx, Nat.and_one_is_mod]
    omega
  rcases Nat.lt_or_ge idx (Decode.lsbBits p).length with h | h
  · rw [List.getD_eq_getElem _ _ h]
    exact hall _ (List.getElem_mem h)
  · rw [List.getD_eq_default _ _ h]
    omega

/-- The collected bit list has length `min (plane length) 100000`. -/
lemma lsbBits_length (p : List Nat) : (Decode.lsbBits p).length = min p.length 100000 := by
  simp [Decode.lsbBits, Nat.min_comm]

/-- The byte loop succeeds exactly on the available bit range, producing the
MSB-first bytes. -/
lemma extractMessageBytes_some (bits : List Nat) (count : Nat) :
    ∀ start, start + 8 * count ≤ bits.length →
      Decode.extractMessageBytes bits start count
        = some ((List.range count).map fun i => Decode.byteAt bits (start + 8 * i)) := by
  induction count with
  | zero => intro start _; simp [Decode.extractMessageBytes]
  | succ c ih =>
    intro start h
    have hg : start + 8 ≤ bits.length := by omega
    have hrec := ih (start + 8) (by omega)
    rw [Decode.extractMessageBytes, if_pos hg, hrec]
    have hmap : ((List.range (c + 1)).map fun i => Decode.byteAt bits (start + 8 * i))
        = Decode.byteAt bits start
          :: ((List.range c).map fun i => Decode.byteAt bits (start + 8 + 8 * i)) := by
      rw [List.range_succ_eq_map, List.map_cons, List.map_map]
      congr 1
      apply List.map_congr_left
      intro a _
      simp only [Function.comp_apply]
      congr 1
      omega
    rw [hmap]

/-- The byte loop fails whenever the needed bits outrun the collected ones. -/
lemma extractMessageBytes_none (bits : List Nat) (count : Nat) :
    ∀ start, bits.length < start + 8 * count → 0 < count →
      Decode.extractMessageBytes bits start count = none := by
  induction count with
  | zero => intro start _ h; omega
  | succ c ih =>
    intro start h _
    by_cases hg : start + 8 ≤ bits.length
    · have hc : 0 < c := by omega
      have hrec := ih (start + 8) (by omega) hc
      rw [Decode.extractMessageBytes, if_pos hg, hrec]
    · rw [Decode.extractMessageBytes, if_neg hg]

/-- The code-side MSB-first byte equals the specification-side byte. -/
lemma byteAt_eq_specMessageByte (p : List Nat) (i : Nat) :
    Decode.byteAt (Decode.lsbBits p) (32 + 8 * i) = specMessageByte p i := by
  rw [Decode.byteAt, specMessageByte]
  rw [show ((List.range 8).foldl
      (fun byte j => (byte <<< 1) ||| (Decode.lsbBits p).getD (32 + 8 * i + j) 0) 0)
      = (((List.range 8).map fun j => (Decode.lsbBits p).getD (32 + 8 * i + j) 0).foldl
        (fun a b => (a <<< 1) ||| b) 0) from (List.foldl_map _ _ _ _).symm]
  rw [foldl_shiftor_eq_foldl_arith _ (by
    intro b hb
    simp only [List.mem_map] at hb
    obtain ⟨j, _, hj⟩ := hb
    exact hj ▸ lsbBits_getD_lt_two p _)]
  rw [List.foldl_map]

/-- C4: `decodeLSB` is lenient about the sentinel — whenever the collected
bits hold a length `L` in `(0,100000]` and `32 + 8L` bits, it returns
exactly the `L` bytes assembled MSB-first from bits 32 onward (whatever the
56 bits after them hold), and it returns `null` exactly when the length is
out of range or the collected bits cannot cover the message. -/
theorem decodeLSB_spec (plane : List Nat) :
    (Decode.decodeLSB plane = none ↔
      ¬(0 < Decode.lsbLength plane ∧ Decode.lsbLength plane ≤ 100000
        ∧ 32 + 8 * Decode.lsbLength plane ≤ min plane.length 100000))
    ∧ (0 < Decode.lsbLength plane → Decode.lsbLength plane ≤ 100000 →
        32 + 8 * Decode.lsbLength plane ≤ min plane.length 100000 →
        Decode.decodeLSB plane
          = some ((List.range (Decode.lsbLength plane)).map (specMessageByte plane))) := by
  constructor
  · by_cases hs : Decode.lsbLength plane = 0 ∨ 100000 < Decode.lsbLength plane
    · rw [Decode.decodeLSB, if_pos hs]
      simp only [true_iff]
      omega
    · rw [Decode.decodeLSB, if_neg hs]
      push_neg at hs
      by_cases hb : 32 + 8 * Decode.lsbLength plane ≤ min plane.length 100000
      · rw [extractMessageBytes_some _ _ 32 (by rw [lsbBits_length]; omega)]
        exact ⟨fun h => by simp at h, fun h => absurd ⟨by omega, by omega, hb⟩ h⟩
      · rw [extractMessageBytes_none _ _ 32 (by rw [lsbBits_length]; omega) (by omega)]
        simp only [true_iff]
        omega
  · intro h1 h2 h3
    rw [Decode.decodeLSB, if_neg (by omega)]
    rw [extractMessageBytes_some _ _ 32 (by rw [lsbBits_length]; omega)]
    congr 1
    apply List.map_congr_left
    intro i _
    exact byteAt_eq_specMessageByte plane i

/-- C4 witness: a concrete 40-byte plane framing length 1 decodes to its
single MSB-first byte even though no sentinel bits are present at all. -/
theorem decodeLSB_spec_witness :
    Decode.decodeLSB plane4
      = some ((List.range (Decode.lsbLength plane4)).map (specMessageByte plane4)) :=
  (decodeLSB_spec plane4).2 (by decide) (by decide) (by decide)

/-- `getD` on an all-zero replicate is zero at every index. -/
lemma getD_replicate_zero (n k : Nat) : (List.replicate n (0 : Nat)).getD k 0 = 0 := by
  rcases Nat.lt_or_ge k n with h | h
  · rw [List.getD_eq_getElem _ _ (by simpa using h), List.getElem_replicate]
  · rw [List.getD_eq_default _ _ (by simpa using h)]

/-- A byte assembled from eight zero bits is zero. -/
lemma byteAt_zero (bits : List Nat) (start : Nat)
    (hz : ∀ j, j < 8 → bits.getD (start + j) 0 = 0) : Decode.byteAt bits start = 0 := by
  have h0 := hz 0 (by omega)
  have h1 := hz 1 (by omega)
  have h2 := hz 2 (by omega)
  have h3 := hz 3 (by omega)
  have h4 := hz 4 (by omega)
  have h5 := hz 5 (by omega)
  have h6 := hz 6 (by omega)
  have h7 := hz 7 (by omega)
  rw [Decode.byteAt, show (List.range 8) = [0, 1, 2, 3, 4, 5, 6, 7] from by decide]
  simp only [List.foldl_cons, List.foldl_nil, h0, h1, h2, h3, h4, h5, h6, h7]
  rfl

/-- The length of `plane10`. -/
lemma plane10_length : plane10.length = 100000 := by
  rw [show plane10 = lsbLenPrefix ++ List.replicate 99968 0 from rfl, List.length_append,
    List.length_replicate, show lsbLenPrefix.length = 32 from by decide]

/-- All collected bits of `plane10` from index 32 on are zero. -/
lemma plane10_bits_zero (idx : Nat) (hidx : 32 ≤ idx) :
    (Decode.lsbBits plane10).getD idx 0 = 0 := by
  have htake : plane10.take 100000 = plane10 :=
    List.take_of_length_le (by rw [plane10_length])
  rw [Decode.lsbBits, htake]
  rw [show plane10 = lsbLenPrefix ++ List.replicate 99968 0 from rfl, List.map_append]
  rw [List.getD_append_right _ _ _ _ (by simp [lsbLenPrefix]; omega)]
  rw [List.map_replicate, show (0 : Nat) &&& 1 = 0 from rfl]
  exact getD_replicate_zero _ _

/-- C10: although the documented sanity range for the LSB length field is
`(0, 100000]`, only `min(planeLength, 100000)` bits are ever collected, so
any decoded length above 12496 (the largest `L` with `32 + 8L ≤ 100000`)
makes `decodeLSB` return `null`; length 12496 itself is recoverable. -/
theorem decodeLSB_bit_budget :
    (∀ plane : List Nat, 12496 < Decode.lsbLength plane → Decode.decodeLSB plane = none)
    ∧ (∃ plane msg, Decode.lsbLength plane = 12496 ∧ Decode.decodeLSB plane = some msg
        ∧ msg.length = 12496) := by
  constructor
  · intro plane h
    by_cases h1 : 100000 < Decode.lsbLength plane
    · rw [Decode.decodeLSB, if_pos (Or.inr h1)]
    · rw [Decode.decodeLSB, if_neg (by omega)]
      exact extractMessageBytes_none _ _ 32 (by rw [lsbBits_length]; omega) (by omega)
  · refine ⟨plane10, List.replicate 12496 0, by decide, ?_, by rw [List.length_replicate]⟩
    have hbits : (Decode.lsbBits plane10).length = 100000 := by
      rw [lsbBits_length, plane10_length]
      exact Nat.min_self _
    have hL : Decode.lsbLength plane10 = 12496 := by decide
    rw [Decode.decodeLSB, if_neg (by rw [hL]; omega), hL]
    rw [extractMessageBytes_some _ _ 32 (by rw [hbits]; try omega)]
    have hmsg : ((List.range 12496).map fun i =>
        Decode.byteAt (Decode.lsbBits plane10) (32 + 8 * i)) = List.replicate 12496 0 := by
      apply List.ext_getElem
        (by rw [List.length_map, List.length_range, List.length_replicate])
      intro n hn1 hn2
      simp only [List.getElem_map, List.getElem_range, List.getElem_replicate]
      apply byteAt_zero
      intro j hj
      exact plane10_bits_zero _ (by omega)
    rw [hmsg]

/-- C10 witness: a 32-byte plane of odd bytes has decoded length 2^32 - 1,
far above the 12496 ceiling, and decodes to nothing. -/
theorem decodeLSB_bit_budget_witness : Decode.decodeLSB plane32 = none :=
  decodeLSB_bit_budget.1 plane32 (by decide)

/-- Each byte expands to exactly 8 bits. -/
lemma byteBits_length (b : Nat) : (Encode.byteBits b).length = 8 := by
  simp [Encode.byteBits]

/-- Reading one expanded bit of a byte. -/
lemma byteBits_getD (b j : Nat) (hj : j < 8) :
    (Encode.byteBits b).getD j 0 = (b >>> (7 - j)) &&& 1 :=
  getD_map_range _ _ _ _ hj

/-- The framed buffer has `4 + length + 7` bytes. -/
lemma fullMessage_length (msg : List Nat) :
    (Encode.fullMessage msg).length = 4 + msg.length + 7 := by
  simp [Encode.fullMessage, Encode.lengthBytes4, Encode.endSentinel]
  omega

/-- The framed bit count is 32 length bits + 8 bits per byte + 56 sentinel
bits, exactly as the specification counts it. -/
lemma frameBits_length (msg : List Nat) :
    (Encode.frameBits msg).length = framedBitCount msg := by
  rw [Encode.frameBits, length_flatMap_const _ _ 8 (fun a _ => byteBits_length a),
    fullMessage_length, framedBitCount]
  ring

/-- Masking with 255 before extracting one of the low 8 bits is harmless. -/
lemma mask255_shift_bit (y b : Nat) (hb : b ≤ 7) :
    ((y &&& 255) >>> b) &&& 1 = (y >>> b) &&& 1 := by
  rw [Nat.and_one_is_mod, Nat.and_one_is_mod, Nat.shiftRight_eq_div_pow,
    Nat.shiftRight_eq_div_pow, Nat.and_pow_two_sub_one_eq_mod y 8]
  interval_cases b <;> omega

/-- Each framed bit produced by the encoder equals the corresponding
specification-side frame bit. -/
lemma frameBits_getD (msg : List Nat) (i : Nat) (hi : i < framedBitCount msg) :
    (Encode.frameBits msg).getD i 0 = specFrameBit msg i := by
  obtain ⟨r, j, hj, rfl⟩ : ∃ r j, j < 8 ∧ i = 8 * r + j :=
    ⟨i / 8, i % 8, Nat.mod_lt _ (by omega), (Nat.div_add_mod i 8).symm⟩
  have hr : r < (Encode.fullMessage msg).length := by
    rw [fullMessage_length]
    rw [framedBitCount] at hi
    omega
  rw [Encode.frameBits, getD_flatMap_const _ _ 8 (fun a _ => byteBits_length a) r j hr hj 0 0,
    byteBits_getD _ _ hj]
  have hlen4 : (Encode.lengthBytes4 msg.length).length = 4 := by
    simp [Encode.lengthBytes4]
  rcases Nat.lt_or_ge r 4 with h4 | h4
  · -- length-field bytes
    have hgetD : (Encode.fullMessage msg).getD r 0
        = (Encode.lengthBytes4 msg.length).getD r 0 := by
      rw [Encode.fullMessage, List.getD_append _ _ _ _ (by rw [List.length_append, hlen4]; omega)]
      exact List.getD_append _ _ _ _ (by omega)
    rw [hgetD, specFrameBit, if_pos (by omega)]
    interval_cases r
    · rw [show (Encode.lengthBytes4 msg.length).getD 0 0 = (msg.length >>> 24) &&& 255 from rfl,
        mask255_shift_bit _ _ (by omega), ← Nat.shiftRight_add]
      congr 2
      omega
    · rw [show (Encode.lengthBytes4 msg.length).getD 1 0 = (msg.length >>> 16) &&& 255 from rfl,
        mask255_shift_bit _ _ (by omega), ← Nat.shiftRight_add]
      congr 2
      omega
    · rw [show (Encode.lengthBytes4 msg.length).getD 2 0 = (msg.length >>> 8) &&& 255 from rfl,
        mask255_shift_bit _ _ (by omega), ← Nat.shiftRight_add]
      congr 2
      omega
    · rw [show (Encode.lengthBytes4 msg.length).getD 3 0 = msg.length &&& 255 from rfl,
        mask255_shift_bit _ _ (by omega)]
      congr 2
      omega
  · rcases Nat.lt_or_ge r (4 + msg.length) with hm | hm
    · -- message bytes
      have hgetD : (Encode.fullMessage msg).getD r 0 = msg.getD (r - 4) 0 := by
        rw [Encode.fullMessage,
          List.getD_append _ _ _ _ (by rw [List.length_append, hlen4]; omega),
          List.getD_append_right _ _ _ _ (by omega), hlen4]
      rw [hgetD, specFrameBit, if_neg (by omega), if_pos (by rw [framedBitCount] at hi; omega)]
      have e1 : (8 * r + j - 32) / 8 = r - 4 := by omega
      have e2 : (8 * r + j - 32) % 8 = j := by omega
      rw [e1, e2]
    · -- sentinel bytes
      have hgetD : (Encode.fullMessage msg).getD r 0
          = Encode.endSentinel.getD (r - (4 + msg.length)) 0 := by
        rw [Encode.fullMessage,
          List.getD_append_right _ _ _ _ (by rw [List.length_append, hlen4]; omega),
          List.length_append, hlen4]
      rw [hgetD, specFrameBit, if_neg (by omega), if_neg (by omega)]
      have e1 : (8 * r + j - (32 + 8 * msg.length)) / 8 = r - (4 + msg.length) := by omega
      have e2 : (8 * r + j - (32 + 8 * msg.length)) % 8 = j := by omega
      rw [e1, e2]

/-- C5: `encodeLSB` fails exactly when the framed bit count
(32 + 8 per byte + 56) exceeds the plane byte count — checked before
anything is written, and the input plane, being cloned, is never mutated —
and on success byte `i` is `(plane[i] AND 0xFE) OR bit_i` inside the framed
range and `plane[i]` beyond it. -/
theorem encodeLSB_spec (plane msg : List Nat) :
    ((∃ e, Encode.encodeLSB plane msg = .error e) ↔ plane.length < framedBitCount msg)
    ∧ ∀ out, Encode.encodeLSB plane msg = .ok out →
        out.length = plane.length ∧ ∀ i, i < plane.length →
          out.getD i 0 = if i < framedBitCount msg
            then (plane.getD i 0 &&& 254) ||| specFrameBit msg i
            else plane.getD i 0 := by
  have hlen := frameBits_length msg
  constructor
  · constructor
    · rintro ⟨e, he⟩
      rw [Encode.encodeLSB] at he
      split_ifs at he with hc
      rwa [hlen] at hc
    · intro hc
      exact ⟨_, by rw [Encode.encodeLSB, if_pos (by rw [hlen]; exact hc)]⟩
  · intro out hout
    rw [Encode.encodeLSB] at hout
    split_ifs at hout with hc
    simp only [Except.ok.injEq] at hout
    subst hout
    refine ⟨by simp, ?_⟩
    intro i hi
    rw [getD_map_range _ _ _ _ hi, hlen]
    by_cases hb : i < framedBitCount msg
    · rw [if_pos hb, if_pos hb, frameBits_getD msg i hb]
    · rw [if_neg hb, if_neg hb]

/-- C5 witness: on a 96-byte plane — exactly the capacity of a one-byte
message — encoding succeeds and byte 31 carries the closing length bit over
the cleared LSB of the original byte. -/
theorem encodeLSB_spec_witness :
    out5.getD 31 0 = if 31 < framedBitCount [7]
      then (plane5.getD 31 0 &&& 254) ||| specFrameBit [7] 31
      else plane5.getD 31 0 :=
  ((encodeLSB_spec plane5 [7]).2 out5 (by decide)).2 31 (by decide)

/-- A marker match fails wherever its first byte mismatches. -/
lemma matchesAt_false_of_head_ne (data : List Nat) (m : Nat) (ms : List Nat) (i : Nat)
    (h : data.getD i 0 ≠ m) : Decode.matchesAt data (m :: ms) i = false := by
  have hbeq : (data.getD i 0 == m) = false := beq_eq_false_iff_ne.mpr h
  show ((data.getD i 0 == m) && Decode.matchesAt data ms (i + 1)) = false
  rw [hbeq, Bool.false_and]

/-- If no position in `[1, i]` matches and position 0 does, the backward
scan lands on 0. -/
lemma findMarkerAux_eq_zero (data marker : List Nat) (i : Nat)
    (hno : ∀ j, 1 ≤ j → j ≤ i → Decode.matchesAt data marker j = false)
    (h0 : Decode.matchesAt data marker 0 = true) :
    Decode.findMarkerAux data marker i = some 0 := by
  induction i with
  | zero => simp [Decode.findMarkerAux, h0]
  | succ n ih =>
    rw [Decode.findMarkerAux, hno (n + 1) (by omega) (by omega)]
    simp only [Bool.false_eq_true, if_false]
    exact ih fun j hj1 hj2 => hno j hj1 (by omega)

/-- The length of the boundary counterexample buffer. -/
lemma cbuf_length : cbuf.length = 100009 := by
  rw [show cbuf = [83, 84, 69, 71, 79, 0, 1, 134, 160] ++ List.replicate 100000 65 from rfl,
    List.length_append, List.length_replicate]
  decide

/-- Byte 83 occurs in `cbuf` only at index 0. -/
lemma cbuf_getD_ne (j : Nat) (hj : 1 ≤ j) : cbuf.getD j 0 ≠ 83 := by
  rcases Nat.lt_or_ge j 9 with h9 | h9
  · interval_cases j <;> decide
  · rw [show cbuf = [83, 84, 69, 71, 79, 0, 1, 134, 160] ++ List.replicate 100000 65 from rfl,
      List.getD_append_right _ _ _ _ (by simpa using h9)]
    exact getD_ne_of_not_mem _ (fun hm => by rw [List.mem_replicate] at hm; omega) (by omega)

/-- The STEGO marker matches nowhere in `cbuf` except at index 0. -/
lemma cbuf_no_inner_match (j : Nat) (hj : 1 ≤ j) :
    Decode.matchesAt cbuf Decode.stegoMarker j = false :=
  matchesAt_false_of_head_ne _ _ _ _ (cbuf_getD_ne j hj)

/-- The backward marker scan over `cbuf` finds the marker at index 0. -/
lemma findMarker_cbuf : Decode.findMarker cbuf Decode.stegoMarker = some 0 := by
  rw [Decode.findMarker, if_pos (by rw [cbuf_length]; decide)]
  rw [show Decode.stegoMarker.length = 5 from rfl, cbuf_length]
  exact findMarkerAux_eq_zero _ _ _ (fun j h1 _ => cbuf_no_inner_match j h1) (by decide)

/-- Characterization of the legacy decoder: a payload comes back exactly
when the marker is found, the length field fits, the big-endian length is
strictly between 0 and 100000, and the payload fits. -/
lemma legacyDecode_some_iff (data p : List Nat) :
    Decode.legacyDecode data = some p ↔
      ∃ idx, Decode.findMarker data Decode.stegoMarker = some idx
        ∧ idx + 9 ≤ data.length
        ∧ 0 < u32beAt data (idx + 5)
        ∧ u32beAt data (idx + 5) < 100000
        ∧ idx + 9 + u32beAt data (idx + 5) ≤ data.length
        ∧ p = (data.drop (idx + 9)).take (u32beAt data (idx + 5)) := by
  cases hfm : Decode.findMarker data Decode.stegoMarker with
  | none => simp [Decode.legacyDecode, hfm]
  | some idx =>
    simp only [Decode.legacyDecode, hfm]
    constructor
    · intro h
      split_ifs at h with h1 h2 h3
      simp only [Option.some.injEq] at h
      exact ⟨idx, rfl, by omega, h2.1, h2.2, by omega, h.symm⟩
    · rintro ⟨idx', heq, h2, h3, h4, h5, rfl⟩
      obtain rfl : idx' = idx := by
        injection heq with h
        exact h.symm
      rw [if_pos (by omega), if_pos ⟨h3, h4⟩, if_pos (by omega)]

/-- C3 counterexample: in `cbuf` the marker sits at index 0, the length
field reads exactly 100000, the payload is positive, within the claimed
`≤ 100000` bound, and entirely present in the buffer — yet `legacyDecode`
yields no payload, because the code validates `length < 100000` strictly. -/
theorem legacy_boundary_counterexample :
    Decode.legacyDecode cbuf = none
    ∧ Decode.findMarker cbuf Decode.stegoMarker = some 0
    ∧ u32beAt cbuf 5 = 100000
    ∧ (0 : Nat) < 100000 ∧ (100000 : Nat) ≤ 100000
    ∧ 0 + 9 + 100000 ≤ cbuf.length := by
  have hval : u32beAt cbuf (0 + 5) = 100000 := by decide
  refine ⟨?_, findMarker_cbuf, by decide, by omega, by omega, by rw [cbuf_length]⟩
  cases h : Decode.legacyDecode cbuf with
  | none => rfl
  | some p =>
    exfalso
    obtain ⟨idx, hidx, _h2, _h3, h4, _h5, _h6⟩ := (legacyDecode_some_iff cbuf p).mp h
    rw [findMarker_cbuf] at hidx
    obtain rfl : (0 : Nat) = idx := by injection hidx
    rw [hval] at h4
    omega

/-- C3 amended: `legacyDecode` returns a payload exactly when the marker is
found, the 4-byte length field fits, the big-endian length is strictly
between 0 and 100000 (so at most 99999, not the documented 100000), and the
payload fits in the remaining bytes; the payload is then the slice after
the length field.  Out-of-range lengths, including exactly 100000, yield no
payload at all. -/
theorem legacyDecode_spec (data p : List Nat) :
    Decode.legacyDecode data = some p ↔
      ∃ idx, Decode.findMarker data Decode.stegoMarker = some idx
        ∧ idx + 9 ≤ data.length
        ∧ 0 < u32beAt data (idx + 5)
        ∧ u32beAt data (idx + 5) < 100000
        ∧ idx + 9 + u32beAt data (idx + 5) ≤ data.length
        ∧ p = (data.drop (idx + 9)).take (u32beAt data (idx + 5)) :=
  legacyDecode_some_iff data p

/-- C3 witness for the amended claim: a 12-byte legacy frame of length 3
decodes to its three payload bytes. -/
theorem legacyDecode_spec_witness : Decode.legacyDecode sbuf = some [65, 66, 67] :=
  (legacyDecode_spec sbuf [65, 66, 67]).mpr
    ⟨0, by decide, by decide, by decide, by decide, by decide, by decide⟩

/-- The bitmap row stride is at least the bare pixel bytes. -/
lemma bmpRowSize_ge (w : Nat) : 3 * w ≤ Encode.bmpRowSize w := by
  rw [Encode.bmpRowSize]
  omega

/-- Every stored row is one stride long. -/
lemma bmpRow_length (w : Nat) (rgb : List Nat) (y : Nat) :
    (Encode.bmpRow w rgb y).length = Encode.bmpRowSize w := by
  rw [Encode.bmpRow, List.length_append, List.length_replicate,
    length_flatMap_three, List.length_range]
  have := bmpRowSize_ge w
  omega

/-- The serialized header is 54 bytes. -/
lemma bmpHeader_length (a b c : Nat) : (Encode.bmpHeader a b c).length = 54 := by
  simp [Encode.bmpHeader, Encode.u32le, Encode.u16le]

/-- The serialized header, flattened to its explicit byte list. -/
lemma bmpHeader_eq (a b c : Nat) :
    Encode.bmpHeader a b c = [66, 77,
      (54 + c) % 256, (54 + c) / 256 % 256, (54 + c) / 65536 % 256, (54 + c) / 16777216 % 256,
      0, 0, 0, 0, 54, 0, 0, 0, 40, 0, 0, 0,
      a % 256, a / 256 % 256, a / 65536 % 256, a / 16777216 % 256,
      b % 256, b / 256 % 256, b / 65536 % 256, b / 16777216 % 256,
      1, 0, 24, 0, 0, 0, 0, 0,
      c % 256, c / 256 % 256, c / 65536 % 256, c / 16777216 % 256,
      19, 11, 0, 0, 19, 11, 0, 0, 0, 0, 0, 0, 0, 0, 0, 0] := by
  simp [Encode.bmpHeader, Encode.u32le, Encode.u16le]

/-- Header bytes of the serialized bitmap are read from the header. -/
lemma createBMP_getD_header (w h : Nat) (rgb : List Nat) (k : Nat) (hk : k < 54) :
    (Encode.createBMP w h rgb).getD k 0
      = (Encode.bmpHeader w h (Encode.bmpRowSize w * h)).getD k 0 := by
  rw [Encode.createBMP]
  exact List.getD_append _ _ _ _ (by rw [bmpHeader_length]; exact hk)

/-- Pixel-area bytes of the serialized bitmap are read from the row stored
for the mirrored source row. -/
lemma createBMP_getD_pix (w h : Nat) (rgb : List Nat) (srcY j : Nat)
    (hs : srcY < h) (hj : j < Encode.bmpRowSize w) :
    (Encode.createBMP w h rgb).getD (54 + srcY * Encode.bmpRowSize w + j) 0
      = (Encode.bmpRow w rgb (h - 1 - srcY)).getD j 0 := by
  rw [Encode.createBMP, List.getD_append_right _ _ _ _ (by rw [bmpHeader_length]; omega),
    bmpHeader_length]
  have hidx : 54 + srcY * Encode.bmpRowSize w + j - 54 = Encode.bmpRowSize w * srcY + j := by
    ring_nf
    omega
  rw [hidx]
  rw [getD_flatMap_const _ _ (Encode.bmpRowSize w) (fun a _ => bmpRow_length w rgb a) srcY j
    (by rw [List.length_reverse, List.length_range]; exact hs) hj 0 0]
  have harg : ((List.range h).reverse).getD srcY 0 = h - 1 - srcY := by
    rw [List.getD_eq_getElem _ _ (by rw [List.length_reverse, List.length_range]; exact hs)]
    simp [List.getElem_reverse]
  rw [harg]

/-- Reading one stored BGR byte of row `y`. -/
lemma bmpRow_getD (w : Nat) (rgb : List Nat) (y x c : Nat) (hx : x < w) (hc : c < 3) :
    (Encode.bmpRow w rgb y).getD (3 * x + c) 0
      = [rgb.getD ((y * w + x) * 3 + 2) 0 % 256, rgb.getD ((y * w + x) * 3 + 1) 0 % 256,
         rgb.getD ((y * w + x) * 3) 0 % 256].getD c 0 := by
  rw [Encode.bmpRow]
  rw [List.getD_append _ _ _ _ (by
    rw [length_flatMap_three, List.length_range]
    omega)]
  rw [getD_flatMap_three _ _ _ _ x c (by rwa [List.length_range]) hc 0 0]
  have harg : (List.range w).getD x 0 = x := by
    rw [List.getD_eq_getElem _ _ (by rwa [List.length_range]), List.getElem_range]
  rw [harg]


/-- A `getD` over a byte list is unchanged by a final reduction mod 256. -/
lemma getD_byte_mod (l : List Nat) (k : Nat) (hb : ∀ v ∈ l, v < 256) :
    l.getD k 0 % 256 = l.getD k 0 := by
  rcases Nat.lt_or_ge k l.length with hk | hk
  · rw [List.getD_eq_getElem _ _ hk]
    exact Nat.mod_eq_of_lt (hb _ (List.getElem_mem hk))
  · rw [List.getD_eq_default _ _ hk]

/-- Reading stored pixel byte `c` of pixel `(x, y)` back from the
serialized bitmap recovers the corresponding RGB byte. -/
lemma createBMP_pixel_read (w h : Nat) (rgb : List Nat) (y x c : Nat)
    (hy : y < h) (hx : x < w) (hc : c < 3) (hbytes : ∀ v ∈ rgb, v < 256) :
    (Encode.createBMP w h rgb).getD (54 + (h - 1 - y) * Encode.bmpRowSize w + (3 * x + c)) 0
      = rgb.getD ((y * w + x) * 3 + (2 - c)) 0 := by
  rw [createBMP_getD_pix _ _ _ _ _ (by omega) (by have := bmpRowSize_ge w; omega)]
  have hyy : h - 1 - (h - 1 - y) = y := by omega
  rw [hyy, bmpRow_getD _ _ _ _ _ hx hc]
  interval_cases c
  · exact getD_byte_mod _ _ hbytes
  · exact getD_byte_mod _ _ hbytes
  · show rgb.getD ((y * w + x) * 3) 0 % 256 = rgb.getD ((y * w + x) * 3 + (2 - 2)) 0
    rw [getD_byte_mod _ _ hbytes]
    rfl


/-- Individual bytes of the serialized bitmap header. -/
lemma bmpHeader_byte_0 (a b c : Nat) : (Encode.bmpHeader a b c).getD 0 0 = 66 := by
  rw [bmpHeader_eq]
  rfl

lemma bmpHeader_byte_1 (a b c : Nat) : (Encode.bmpHeader a b c).getD 1 0 = 77 := by
  rw [bmpHeader_eq]
  rfl

lemma bmpHeader_byte_10 (a b c : Nat) : (Encode.bmpHeader a b c).getD 10 0 = 54 := by
  rw [bmpHeader_eq]
  rfl

lemma bmpHeader_byte_11 (a b c : Nat) : (Encode.bmpHeader a b c).getD 11 0 = 0 := by
  rw [bmpHeader_eq]
  rfl

lemma bmpHeader_byte_12 (a b c : Nat) : (Encode.bmpHeader a b c).getD 12 0 = 0 := by
  rw [bmpHeader_eq]
  rfl

lemma bmpHeader_byte_13 (a b c : Nat) : (Encode.bmpHeader a b c).getD 13 0 = 0 := by
  rw [bmpHeader_eq]
  rfl

lemma bmpHeader_byte_18 (a b c : Nat) : (Encode.bmpHeader a b c).getD 18 0 = a % 256 := by
  rw [bmpHeader_eq]
  rfl

lemma bmpHeader_byte_19 (a b c : Nat) : (Encode.bmpHeader a b c).getD 19 0 = a / 256 % 256 := by
  rw [bmpHeader_eq]
  rfl

lemma bmpHeader_byte_20 (a b c : Nat) : (Encode.bmpHeader a b c).getD 20 0 = a / 65536 % 256 := by
  rw [bmpHeader_eq]
  rfl

lemma bmpHeader_byte_21 (a b c : Nat) : (Encode.bmpHeader a b c).getD 21 0 = a / 16777216 % 256 := by
  rw [bmpHeader_eq]
  rfl

lemma bmpHeader_byte_22 (a b c : Nat) : (Encode.bmpHeader a b c).getD 22 0 = b % 256 := by
  rw [bmpHeader_eq]
  rfl

lemma bmpHeader_byte_23 (a b c : Nat) : (Encode.bmpHeader a b c).getD 23 0 = b / 256 % 256 := by
  rw [bmpHeader_eq]
  rfl

lemma bmpHeader_byte_24 (a b c : Nat) : (Encode.bmpHeader a b c).getD 24 0 = b / 65536 % 256 := by
  rw [bmpHeader_eq]
  rfl

lemma bmpHeader_byte_25 (a b c : Nat) : (Encode.bmpHeader a b c).getD 25 0 = b / 16777216 % 256 := by
  rw [bmpHeader_eq]
  rfl

lemma bmpHeader_byte_28 (a b c : Nat) : (Encode.bmpHeader a b c).getD 28 0 = 24 := by
  rw [bmpHeader_eq]
  rfl

lemma bmpHeader_byte_29 (a b c : Nat) : (Encode.bmpHeader a b c).getD 29 0 = 0 := by
  rw [bmpHeader_eq]
  rfl

set_option maxHeartbeats 1000000 in
/-- C6: parsing a serialized bitmap recovers the original width, height and
RGB plane byte-for-byte (serialization stores a positive height with
bottom-up BGR rows padded to 4-byte boundaries; parsing re-orients and
reorders them back).  The width and height bounds reflect the 32-bit header
fields; JavaScript cannot build the pixel buffer beyond them at all. -/
theorem parseBMP_createBMP (w h : Nat) (rgb : List Nat)
    (hw : 1 ≤ w) (hh : 1 ≤ h) (hw2 : w < 2147483648) (hh2 : h < 2147483648)
    (hlen : rgb.length = w * h * 3) (hbytes : ∀ v ∈ rgb, v < 256) :
    Encode.parseBMP (Encode.createBMP w h rgb) = some ⟨w, h, rgb⟩ := by
  have h0 : (Encode.createBMP w h rgb).getD 0 0 = 66 := by
    rw [createBMP_getD_header _ _ _ _ (by omega), bmpHeader_byte_0]
  have h1 : (Encode.createBMP w h rgb).getD 1 0 = 77 := by
    rw [createBMP_getD_header _ _ _ _ (by omega), bmpHeader_byte_1]
  have h10 : (Encode.createBMP w h rgb).getD 10 0 = 54 := by
    rw [createBMP_getD_header _ _ _ _ (by omega), bmpHeader_byte_10]
  have h11 : (Encode.createBMP w h rgb).getD 11 0 = 0 := by
    rw [createBMP_getD_header _ _ _ _ (by omega), bmpHeader_byte_11]
  have h12 : (Encode.createBMP w h rgb).getD 12 0 = 0 := by
    rw [createBMP_getD_header _ _ _ _ (by omega), bmpHeader_byte_12]
  have h13 : (Encode.createBMP w h rgb).getD 13 0 = 0 := by
    rw [createBMP_getD_header _ _ _ _ (by omega), bmpHeader_byte_13]
  have h18 : (Encode.createBMP w h rgb).getD 18 0 = w % 256 := by
    rw [createBMP_getD_header _ _ _ _ (by omega), bmpHeader_byte_18]
  have h19 : (Encode.createBMP w h rgb).getD 19 0 = w / 256 % 256 := by
    rw [createBMP_getD_header _ _ _ _ (by omega), bmpHeader_byte_19]
  have h20 : (Encode.createBMP w h rgb).getD 20 0 = w / 65536 % 256 := by
    rw [createBMP_getD_header _ _ _ _ (by omega), bmpHeader_byte_20]
  have h21 : (Encode.createBMP w h rgb).getD 21 0 = w / 16777216 % 256 := by
    rw [createBMP_getD_header _ _ _ _ (by omega), bmpHeader_byte_21]
  have h22 : (Encode.createBMP w h rgb).getD 22 0 = h % 256 := by
    rw [createBMP_getD_header _ _ _ _ (by omega), bmpHeader_byte_22]
  have h23 : (Encode.createBMP w h rgb).getD 23 0 = h / 256 % 256 := by
    rw [createBMP_getD_header _ _ _ _ (by omega), bmpHeader_byte_23]
  have h24 : (Encode.createBMP w h rgb).getD 24 0 = h / 65536 % 256 := by
    rw [createBMP_getD_header _ _ _ _ (by omega), bmpHeader_byte_24]
  have h25 : (Encode.createBMP w h rgb).getD 25 0 = h / 16777216 % 256 := by
    rw [createBMP_getD_header _ _ _ _ (by omega), bmpHeader_byte_25]
  have h28 : (Encode.createBMP w h rgb).getD 28 0 = 24 := by
    rw [createBMP_getD_header _ _ _ _ (by omega), bmpHeader_byte_28]
  have h29 : (Encode.createBMP w h rgb).getD 29 0 = 0 := by
    rw [createBMP_getD_header _ _ _ _ (by omega), bmpHeader_byte_29]
  have hoff : u32leRead (Encode.createBMP w h rgb) 10 = 54 := by
    rw [u32leRead, show (10:Nat) + 1 = 11 from rfl, show (10:Nat) + 2 = 12 from rfl,
      show (10:Nat) + 3 = 13 from rfl, h10, h11, h12, h13]
  have hwI : i32leRead (Encode.createBMP w h rgb) 18 = (w : Int) := by
    rw [i32leRead, show (18:Nat) + 3 = 21 from rfl, h21,
      if_pos (by omega : w / 16777216 % 256 < 128), u32leRead,
      show (18:Nat) + 1 = 19 from rfl, show (18:Nat) + 2 = 20 from rfl,
      show (18:Nat) + 3 = 21 from rfl, h18, h19, h20, h21]
    have harith : w % 256 + w / 256 % 256 * 256 + w / 65536 % 256 * 65536
        + w / 16777216 % 256 * 16777216 = w := by
      omega
    rw [harith]
  have hhI : i32leRead (Encode.createBMP w h rgb) 22 = (h : Int) := by
    rw [i32leRead, show (22:Nat) + 3 = 25 from rfl, h25,
      if_pos (by omega : h / 16777216 % 256 < 128), u32leRead,
      show (22:Nat) + 1 = 23 from rfl, show (22:Nat) + 2 = 24 from rfl,
      show (22:Nat) + 3 = 25 from rfl, h22, h23, h24, h25]
    have harith : h % 256 + h / 256 % 256 * 256 + h / 65536 % 256 * 65536
        + h / 16777216 % 256 * 16777216 = h := by
      omega
    rw [harith]
  have hbpp : u16leRead (Encode.createBMP w h rgb) 28 = 24 := by
    rw [u16leRead, show (28:Nat) + 1 = 29 from rfl, h28, h29]
  have hposh : (0 : Int) < (h : Int) := by exact_mod_cast hh
  simp only [Encode.parseBMP, h0, h1, hoff, hwI, hhI, hbpp, hposh, if_true,
    Int.toNat_natCast, Int.natAbs_ofNat, and_self, true_or, Option.some.injEq,
    BMPData.mk.injEq, true_and]
  norm_num
  simp only [← List.getD_eq_getElem?_getD]
  clear h0 h1 h10 h11 h12 h13 h18 h19 h20 h21 h22 h23 h24 h25 h28 h29 hoff hwI hhI hbpp hposh
  apply List.ext_getElem
  · rw [length_flatMap_three, List.length_range, hlen]
    ring
  · intro k hk1 hk2
    have hk3 : k < 3 * (w * h) := by rwa [length_flatMap_three, List.length_range] at hk1
    obtain ⟨i, c, hc, rfl⟩ : ∃ i c, c < 3 ∧ k = 3 * i + c :=
      ⟨k / 3, k % 3, Nat.mod_lt _ (by omega), (Nat.div_add_mod k 3).symm⟩
    have hi : i < w * h := by omega
    rw [← List.getD_eq_getElem _ 0 hk1, ← List.getD_eq_getElem rgb 0 hk2]
    rw [getD_flatMap_three _ _ _ _ i c (by rwa [List.length_range]) hc 0 0]
    have hrange : (List.range (w * h)).getD i 0 = i := by
      rw [List.getD_eq_getElem _ _ (by simpa using hi), List.getElem_range]
    rw [hrange]
    have hyh : i / w < h := Nat.div_lt_of_lt_mul hi
    have hxw : i % w < w := Nat.mod_lt _ (by omega)
    interval_cases c
    · rw [List.getD_cons_zero]
      have e : 54 + (h - 1 - i / w) * ((w * 3 + 3) / 4 * 4) + i % w * 3 + 2
          = 54 + (h - 1 - i / w) * Encode.bmpRowSize w + (3 * (i % w) + 2) := by
        rw [Encode.bmpRowSize]
        ring
      rw [e, createBMP_pixel_read _ _ _ _ _ _ hyh hxw (by omega) hbytes]
      have e1 : i / w * w + i % w = i := by
        rw [Nat.mul_comm]
        exact Nat.div_add_mod i w
      rw [e1]
      congr 2
      omega
    · rw [List.getD_cons_succ, List.getD_cons_zero]
      have e : 54 + (h - 1 - i / w) * ((w * 3 + 3) / 4 * 4) + i % w * 3 + 1
          = 54 + (h - 1 - i / w) * Encode.bmpRowSize w + (3 * (i % w) + 1) := by
        rw [Encode.bmpRowSize]
        ring
      rw [e, createBMP_pixel_read _ _ _ _ _ _ hyh hxw (by omega) hbytes]
      have e1 : i / w * w + i % w = i := by
        rw [Nat.mul_comm]
        exact Nat.div_add_mod i w
      rw [e1]
      congr 2
      omega
    · rw [List.getD_cons_succ, List.getD_cons_succ, List.getD_cons_zero]
      have e : 54 + (h - 1 - i / w) * ((w * 3 + 3) / 4 * 4) + i % w * 3
          = 54 + (h - 1 - i / w) * Encode.bmpRowSize w + (3 * (i % w) + 0) := by
        rw [Encode.bmpRowSize]
        ring
      rw [e, createBMP_pixel_read _ _ _ _ _ _ hyh hxw (by omega) hbytes]
      have e1 : i / w * w + i % w = i := by
        rw [Nat.mul_comm]
        exact Nat.div_add_mod i w
      rw [e1]
      congr 2
      omega

/-- C6 witness: a concrete 2-by-1 bitmap round-trips its six RGB bytes. -/
theorem parseBMP_createBMP_witness :
    Encode.parseBMP (Encode.createBMP 2 1 [1, 2, 3, 4, 5, 6]) = some ⟨2, 1, [1, 2, 3, 4, 5, 6]⟩ :=
  parseBMP_createBMP 2 1 [1, 2, 3, 4, 5, 6] (by decide) (by decide) (by decide) (by decide)
    (by decide) (by decide)

/-! ### The wavelet claims (C1, C8, C9) -/

/-- Length of a `flatMap` of explicit four-element chunks. -/
lemma length_flatMap_four {α β : Type} (l : List α) (f g k m : α → β) :
    (l.flatMap fun a => [f a, g a, k a, m a]).length = 4 * l.length :=
  length_flatMap_const l (fun a => [f a, g a, k a, m a]) 4 (fun a _ => rfl)

/-- Element access into a `flatMap` of explicit four-element chunks. -/
lemma getD_flatMap_four {α β : Type} (l : List α) (f g k m : α → β) (r j : Nat)
    (hr : r < l.length) (hj : j < 4) (d : β) (da : α) :
    (l.flatMap fun a => [f a, g a, k a, m a]).getD (4 * r + j) d
      = [f (l.getD r da), g (l.getD r da), k (l.getD r da), m (l.getD r da)].getD j d :=
  getD_flatMap_const l (fun a => [f a, g a, k a, m a]) 4 (fun a _ => rfl) r j hr hj d da

/-- The clamp-round pixel store never exceeds 255. -/
lemma clampRound_le_255 (v : ℚ) : DWT.clampRound v ≤ 255 := by
  rw [DWT.clampRound]
  set u : ℚ := max 0 (min 255 v) with hu
  have hle : u ≤ 255 := max_le (by norm_num) (le_trans (min_le_left _ _) (le_refl _))
  have hd : (0:Int) < (u.den : Int) := by exact_mod_cast u.pos
  have hnum : u.num ≤ 255 * (u.den : Int) := by
    rw [Rat.le_def] at hle
    simpa using hle
  rw [DWT.jsRound, Int.toNat_le]
  have he : Int.ediv (2 * u.num + u.den) (2 * u.den) = (2 * u.num + u.den) / (2 * u.den) := rfl
  rw [he]
  have h2 := (Int.ediv_lt_iff_lt_mul (a := 2 * u.num + u.den) (b := 256)
    (by omega : (0:Int) < 2 * u.den)).mpr (by linarith)
  omega

/-- Length of the RGBA output plane built by `embedText`. -/
lemma rgba_flatMap_length (n : Nat) (data : List Nat) (green : Nat → ℚ) :
    ((List.range n).flatMap fun j =>
        [data.getD (4 * j) 0, DWT.clampRound (green j), data.getD (4 * j + 2) 0,
         data.getD (4 * j + 3) 0]).length = 4 * n := by
  rw [length_flatMap_four, List.length_range]

/-- Per-pixel structure of the RGBA output plane built by `embedText`: red,
blue and alpha are copied from the source plane and the green byte is a
clamp-rounded value, hence at most 255. -/
lemma rgba_flatMap_frame (n : Nat) (data : List Nat) (green : Nat → ℚ) (i : Nat)
    (hi : i < n) :
    (((List.range n).flatMap fun j =>
        [data.getD (4 * j) 0, DWT.clampRound (green j), data.getD (4 * j + 2) 0,
         data.getD (4 * j + 3) 0]).getD (4 * i) 0 = data.getD (4 * i) 0)
    ∧ (((List.range n).flatMap fun j =>
        [data.getD (4 * j) 0, DWT.clampRound (green j), data.getD (4 * j + 2) 0,
         data.getD (4 * j + 3) 0]).getD (4 * i + 2) 0 = data.getD (4 * i + 2) 0)
    ∧ (((List.range n).flatMap fun j =>
        [data.getD (4 * j) 0, DWT.clampRound (green j), data.getD (4 * j + 2) 0,
         data.getD (4 * j + 3) 0]).getD (4 * i + 3) 0 = data.getD (4 * i + 3) 0)
    ∧ ((List.range n).flatMap fun j =>
        [data.getD (4 * j) 0, DWT.clampRound (green j), data.getD (4 * j + 2) 0,
         data.getD (4 * j + 3) 0]).getD (4 * i + 1) 0 ≤ 255 := by
  have hr : i < (List.range n).length := by simpa using hi
  have h0 := getD_flatMap_four (List.range n)
    (fun j => data.getD (4 * j) 0) (fun j => DWT.clampRound (green j))
    (fun j => data.getD (4 * j + 2) 0) (fun j => data.getD (4 * j + 3) 0)
    i 0 hr (by omega) 0 0
  have h1 := getD_flatMap_four (List.range n)
    (fun j => data.getD (4 * j) 0) (fun j => DWT.clampRound (green j))
    (fun j => data.getD (4 * j + 2) 0) (fun j => data.getD (4 * j + 3) 0)
    i 1 hr (by omega) 0 0
  have h2 := getD_flatMap_four (List.range n)
    (fun j => data.getD (4 * j) 0) (fun j => DWT.clampRound (green j))
    (fun j => data.getD (4 * j + 2) 0) (fun j => data.getD (4 * j + 3) 0)
    i 2 hr (by omega) 0 0
  have h3 := getD_flatMap_four (List.range n)
    (fun j => data.getD (4 * j) 0) (fun j => DWT.clampRound (green j))
    (fun j => data.getD (4 * j + 2) 0) (fun j => data.getD (4 * j + 3) 0)
    i 3 hr (by omega) 0 0
  have hrange : (List.range n).getD i 0 = i := by
    rw [List.getD_eq_getElem _ _ hr, List.getElem_range]
  rw [hrange] at h0 h1 h2 h3
  refine ⟨?_, ?_, ?_, ?_⟩
  · simpa using h0
  · simpa using h2
  · simpa using h3
  · have h1' : (((List.range n).flatMap fun j =>
        [data.getD (4 * j) 0, DWT.clampRound (green j), data.getD (4 * j + 2) 0,
         data.getD (4 * j + 3) 0]).getD (4 * i + 1) 0) = DWT.clampRound (green i) := by
      simpa using h1
    rw [h1']
    exact clampRound_le_255 _

/-- Evaluation: embedding the single character code 72 into the all-zero 2×2
image succeeds and yields the concrete stego image `stego0` (green bytes
255, 0, 0, 254: the exact values 256, −256, −254, 254 are clamped). -/
lemma embed_img0_eval : DWT.embedText img0 [72] = .ok stego0 := by
  have hc : DWT.complement8 72 = 183 := by
    norm_num [DWT.complement8, DWT.jsBitLen, Nat.log2]
  norm_num [DWT.embedText, DWT.processEncryption, DWT.listMax, hc, DWT.greenChannel, img0,
    DWT.dwt2, DWT.idwt2, DWT.overwriteHead, DWT.clampRound, DWT.jsRound, stego0,
    List.range_succ]
  omega

/-- Evaluation: extracting from `stego0` fails metadata validation, because
clamping corrupted the length slot `cH[0]` from 1 to 0.25, which rounds
to 0. -/
lemma extract_stego0_eval :
    DWT.extractText stego0
      = .error "No valid embedded message found in this image (invalid length)" := by
  norm_num [DWT.extractText, DWT.metaLength, DWT.metaMax, DWT.greenChannel, stego0,
    DWT.dwt2, DWT.jsRound, List.range_succ]

/-- Evaluation: `img9` passes metadata validation with length 1, but the one
recovered value decodes to the unprintable code 255, so the returned string
is empty. -/
lemma extract_img9_eval : DWT.extractText img9 = .ok [] := by
  norm_num [DWT.extractText, DWT.metaLength, DWT.metaMax, DWT.greenChannel, img9,
    DWT.dwt2, DWT.jsRound, DWT.decodeChar, List.range_succ]

/-- Evaluation: `img9b` passes metadata validation and its one recovered
value decodes to the printable code 65. -/
lemma extract_img9b_eval : DWT.extractText img9b = .ok [65] := by
  norm_num [DWT.extractText, DWT.metaLength, DWT.metaMax, DWT.greenChannel, img9b,
    DWT.dwt2, DWT.jsRound, DWT.decodeChar, List.range_succ]
  omega

/-- Evaluation: the length metadata slot of `img9` reads back as 1. -/
lemma metaLength_img9 : DWT.metaLength img9 = 1 := by
  norm_num [DWT.metaLength, DWT.greenChannel, img9, DWT.dwt2, DWT.jsRound, List.range_succ]

/-- C1: the claimed wavelet round-trip fails on a concrete in-scope input —
the all-zero 2×2 RGBA image (even dimensions) with the one-character text
[72] ("H", within the claimed capacity floor(W/2)·floor(H/2) = 1).
`embedText` succeeds, but the byte clamp corrupts the reconstructed green
plane (exact values 256 and −256/−254 fall outside [0,255]), the
re-decomposed length slot `cH[0]` becomes 0.25 and rounds to 0, and
`extractText` rejects the image instead of returning the text. -/
theorem wavelet_roundtrip_failure :
    img0.width % 2 = 0 ∧ img0.height % 2 = 0
    ∧ [72].length ≤ img0.width / 2 * (img0.height / 2)
    ∧ DWT.embedText img0 [72] = .ok stego0
    ∧ DWT.extractText stego0
        = .error "No valid embedded message found in this image (invalid length)" :=
  ⟨by decide, by decide, by decide, embed_img0_eval, extract_stego0_eval⟩

/-- C8: for every RGBA image (with the RGBA length invariant) and every text
within the checked capacity, `embedText` succeeds, and the output has the
same dimensions and data length, copies every red, blue and alpha byte from
the input, and every output green byte is a clamp-rounded value, hence at
most 255. -/
theorem embedText_frame (img : DWT.ImageData) (text : List Nat)
    (hlen : img.data.length = 4 * (img.width * img.height))
    (hcap : text.length ≤ DWT.maxCapacity img) :
    (∃ out, DWT.embedText img text = .ok out)
    ∧ ∀ out, DWT.embedText img text = .ok out →
        out.width = img.width ∧ out.height = img.height
        ∧ out.data.length = img.data.length
        ∧ ∀ i, i < img.width * img.height →
            out.data.getD (4 * i) 0 = img.data.getD (4 * i) 0
            ∧ out.data.getD (4 * i + 2) 0 = img.data.getD (4 * i + 2) 0
            ∧ out.data.getD (4 * i + 3) 0 = img.data.getD (4 * i + 3) 0
            ∧ out.data.getD (4 * i + 1) 0 ≤ 255 := by
  have hn : (DWT.processEncryption text).2.2 = text.length := rfl
  have hcond : ¬ (min (DWT.dwt2 (DWT.greenChannel img) img.width img.height).cV.length
      (DWT.dwt2 (DWT.greenChannel img) img.width img.height).cD.length * 2
      < (DWT.processEncryption text).2.2) := by
    rw [hn]
    simp only [DWT.maxCapacity] at hcap
    omega
  constructor
  · simp only [DWT.embedText]
    rw [if_neg hcond]
    exact ⟨_, rfl⟩
  · intro out hout
    simp only [DWT.embedText] at hout
    rw [if_neg hcond] at hout
    simp only [Except.ok.injEq] at hout
    subst hout
    refine ⟨rfl, rfl, ?_, ?_⟩
    · show ((List.range (img.width * img.height)).flatMap _).length = _
      rw [rgba_flatMap_length, hlen]
    · intro i hi
      exact rgba_flatMap_frame (img.width * img.height) img.data _ i hi

/-- Witness for C8 at the all-zero 2×2 image and text [72]: the red byte of
pixel 0 is preserved and the green byte is at most 255. -/
theorem embedText_frame_witness :
    stego0.data.getD 0 0 = img0.data.getD 0 0 ∧ stego0.data.getD 1 0 ≤ 255 := by
  have h := (embedText_frame img0 [72] (by decide) (by decide)).2 stego0 embed_img0_eval
  exact ⟨(h.2.2.2 0 (by decide)).1, (h.2.2.2 0 (by decide)).2.2.2⟩

/-- C9: whenever `extractText` succeeds, every returned character code is
printable ASCII (in [32,126]); and the returned string can be strictly
shorter than the embedded length read from the metadata slot, witnessed by
`img9`, whose single recovered value is silently dropped. -/
theorem extractText_printable :
    (∀ img s, DWT.extractText img = .ok s → ∀ c ∈ s, 32 ≤ c ∧ c ≤ 126)
    ∧ ∃ img s, DWT.extractText img = .ok s ∧ (s.length : Int) < DWT.metaLength img := by
  constructor
  · intro img s hok c hc
    simp only [DWT.extractText] at hok
    split_ifs at hok
    simp only [Except.ok.injEq] at hok
    subst hok
    rw [List.mem_filter] at hc
    exact of_decide_eq_true hc.2
  · exact ⟨img9, [], extract_img9_eval, by rw [metaLength_img9]; norm_num⟩

/-- Witness for C9 at `img9b`, whose extraction returns the single code 65:
the code is printable. -/
theorem extractText_printable_witness : 32 ≤ 65 ∧ 65 ≤ 126 :=
  extractText_printable.1 img9b [65] extract_img9b_eval 65 (by decide)
